import Mathlib

/-!
Verification development for the `wobj` Wavefront-OBJ loading library.

The Rust sources are shallowly embedded: byte buffers become `List Char`,
winnow parsers become functions `List Char → Option (α × List Char)`,
machine integers become `Int`/`Nat` with the explicit range checks the
original parsers perform, `f32` attribute components become `ℚ`, and the
`IndexSet`-based deduplication is modelled with an explicit hash argument
standing for the randomly seeded hasher state.
-/

namespace Wobj

/-- A parser over a character buffer: returns the parsed value and the rest
of the input, or `none` on failure (winnow `Result`). -/
abbrev ByteParser (α : Type) : Type := List Char → Option (α × List Char)

/-- 3-component attribute record (`[f32; 3]` in the source). -/
abbrev Vec3 : Type := ℚ × ℚ × ℚ

/-- 2-component attribute record (`[f32; 2]` in the source). -/
abbrev Vec2 : Type := ℚ × ℚ

/-- `FacePoint<T>` from `src/lib.rs`: vertex index plus optional
texture-coordinate and normal indices. -/
structure FacePoint (T : Type) where
  v : T
  t : Option T
  n : Option T
deriving DecidableEq, Repr, Inhabited

/-- `Face` from `src/lib.rs`: the point list of one polygon. -/
abbrev Face : Type := List (FacePoint Nat)

/-- `Object` from `src/lib.rs`: the submesh accumulator / record. -/
structure Object where
  name : Option String := none
  material : Option String := none
  mtllib : Option String := none
  groups : List String := []
  smoothing : Nat := 0
  faces : List Face := []
deriving DecidableEq, Repr, Inhabited

/-- `Object::default()`. -/
def Object.default : Object := {}

/-- `Obj` from `src/lib.rs`: three attribute arrays plus the submesh list. -/
structure Obj where
  vertex : List Vec3 := []
  normal : List Vec3 := []
  texture : List Vec2 := []
  objects : List Object := []
deriving DecidableEq, Repr, Inhabited

/-- `Obj::default()`. -/
def Obj.default : Obj := {}

/-! ### Primitive scanners (winnow building blocks used by `src/util.rs`
and `src/obj/parser.rs`) -/

/-- winnow `line_ending`: `"\r\n"` or `"\n"`. -/
def line_ending : ByteParser Unit := fun s =>
  match s with
  | '\r' :: '\n' :: r => some ((), r)
  | '\n' :: r => some ((), r)
  | _ => none

/-- winnow `till_line_ending`: the run of characters before the next line
ending; fails on a carriage return that is not followed by a newline. -/
def till_line_ending : ByteParser (List Char) := fun s =>
  match s.drop (s.takeWhile fun c => !(c == '\n' || c == '\r')).length with
  | '\r' :: '\n' :: r =>
    some (s.takeWhile fun c => !(c == '\n' || c == '\r'), '\r' :: '\n' :: r)
  | '\r' :: _ => none
  | r => some (s.takeWhile fun c => !(c == '\n' || c == '\r'), r)

/-- `to_next_line` from `src/util.rs`: discard the remainder of the current
line, including its terminator when present. -/
def to_next_line : ByteParser Unit := fun s =>
  match till_line_ending s with
  | none => none
  | some (_, r) =>
    match line_ending r with
    | none => some ((), r)
    | some ((), r2) => some ((), r2)

/-- `word` from `src/util.rs`: `take_till(1.., (' ', '\t', '\r', '\n'))`. -/
def word : ByteParser (List Char) := fun s =>
  let w := s.takeWhile fun c => !(c == ' ' || c == '\t' || c == '\r' || c == '\n')
  if w.isEmpty then none else some (w, s.drop w.length)

theorem drop_length_le (s : List Char) (k : Nat) : (s.drop k).length ≤ s.length := by
  simp

theorem takeWhile_len_le (p : Char → Bool) (l : List Char) :
    (l.takeWhile p).length ≤ l.length := by
  induction l with
  | nil => simp
  | cons a l ih =>
    by_cases h : p a <;> simp [List.takeWhile_cons, h] <;> omega

theorem till_line_ending_length_le {s a r} (h : till_line_ending s = some (a, r)) :
    r.length ≤ s.length := by
  unfold till_line_ending at h
  split at h
  case _ r' heq =>
    injection h with h'
    injection h' with h1 h2
    subst h2
    have hd := List.length_drop
      (i := (s.takeWhile fun c => !(c == '\n' || c == '\r')).length) (l := s)
    rw [heq] at hd
    simp at hd ⊢
    omega
  case _ => exact absurd h (by simp)
  case _ r' hne1 hne2 =>
    injection h with h'
    injection h' with h1 h2
    subst h2
    simp

theorem line_ending_length_lt {s a r} (h : line_ending s = some (a, r)) :
    r.length < s.length := by
  unfold line_ending at h
  split at h
  case _ r' =>
    injection h with h'
    injection h' with h1 h2
    subst h2
    simp only [List.length_cons]
    omega
  case _ r' =>
    injection h with h'
    injection h' with h1 h2
    subst h2
    simp only [List.length_cons]
    omega
  case _ => exact absurd h (by simp)

/-- The `ignoreable` scanner used by `keyword` in `src/obj/parser.rs`.
Modelled from the spec: the definition of `ignoreable` is not under `src/`
(only its import in `src/util.rs`'s users is); per the Grammar Scanner
contract it "skips zero or more comment lines (a line beginning with `#`,
consumed to end-of-line including the line terminator)", matching the
in-tree `comment` helper of the `src/obj.rs` snapshot. -/
def ignoreable_go (fuel : Nat) (s : List Char) : List Char :=
  match fuel with
  | 0 => s
  | fuel' + 1 =>
    match s with
    | '#' :: r =>
      match till_line_ending r with
      | none => '#' :: r
      | some (_, rest) =>
        match line_ending rest with
        | none => '#' :: r
        | some ((), rest2) => ignoreable_go fuel' rest2
    | _ => s

/-- One fuel unit per character plus one always suffices: each consumed
comment line strictly shrinks the input (`till_line_ending_length_le` and
`line_ending_length_lt`). -/
def ignoreable (s : List Char) : List Char :=
  ignoreable_go (s.length + 1) s

/-- `keyword` from `src/obj/parser.rs`: `delimited(ignoreable, word, ' ')`. -/
def keyword : ByteParser (List Char) := fun s =>
  match word (ignoreable s) with
  | none => none
  | some (w, s2) =>
    match s2 with
    | ' ' :: s3 => some (w, s3)
    | _ => none

/-! ### Integer and index parsing (`src/obj/parser.rs`) -/

/-- A run of one or more decimal digits, folded into its value. -/
def pdigits : ByteParser Nat := fun s =>
  let ds := s.takeWhile Char.isDigit
  if ds.isEmpty then none
  else some (ds.foldl (fun n c => 10 * n + (c.toNat - 48)) 0, s.drop ds.length)

/-- winnow `dec_int` instantiated at `isize`: optional sign, digits, with the
64-bit signed range check performed by the original parser. -/
def dec_int : ByteParser Int := fun s =>
  match s with
  | '+' :: r =>
    match pdigits r with
    | none => none
    | some (n, rest) => if (n : Int) ≤ 2 ^ 63 - 1 then some ((n : Int), rest) else none
  | '-' :: r =>
    match pdigits r with
    | none => none
    | some (n, rest) => if (n : Int) ≤ 2 ^ 63 then some (-(n : Int), rest) else none
  | _ =>
    match pdigits s with
    | none => none
    | some (n, rest) => if (n : Int) ≤ 2 ^ 63 - 1 then some ((n : Int), rest) else none

/-- `parse_index` from `src/obj/parser.rs`:
`dec_int.verify_map(NonZero::new)` — a signed decimal integer that must be
non-zero. -/
def parse_index : ByteParser Int := fun s =>
  match dec_int s with
  | none => none
  | some (i, rest) => if i = 0 then none else some (i, rest)

/-- `opt(preceded('/', parse_index))` from `parse_face_point`. -/
def slash_index : ByteParser Int := fun s =>
  match s with
  | '/' :: r => parse_index r
  | _ => none

/-- `preceded(alt(("//", "/")), parse_index)` from `parse_face_point`. -/
def slash2_index : ByteParser Int := fun s =>
  match s with
  | '/' :: '/' :: r => parse_index r
  | '/' :: r => parse_index r
  | _ => none

/-- `parse_face_point` from `src/obj/parser.rs`: a raw (still signed)
point-tuple `v`, `v/t`, `v//n` or `v/t/n`. -/
def parse_face_point : ByteParser (FacePoint Int) := fun s =>
  match parse_index s with
  | none => none
  | some (v, s1) =>
    match slash_index s1 with
    | some (t, s2) =>
      match slash2_index s2 with
      | some (n, s3) => some (⟨v, some t, some n⟩, s3)
      | none => some (⟨v, some t, none⟩, s2)
    | none =>
      match slash2_index s1 with
      | some (n, s2) => some (⟨v, none, some n⟩, s2)
      | none => some (⟨v, none, none⟩, s1)

theorem pdigits_length_lt {s n r} (h : pdigits s = some (n, r)) :
    r.length < s.length := by
  unfold pdigits at h
  by_cases he : (s.takeWhile Char.isDigit).isEmpty
  · simp [he] at h
  · rw [if_neg he] at h
    injection h with h'
    injection h' with h1 h2
    subst h2
    have h3 : (s.takeWhile Char.isDigit).length ≤ s.length := takeWhile_len_le _ _
    have h4 : 0 < (s.takeWhile Char.isDigit).length := by
      cases hq : s.takeWhile Char.isDigit with
      | nil => rw [hq] at he; simp at he
      | cons a l => simp [hq]
    have h5 := List.length_drop (l := s) (i := (s.takeWhile Char.isDigit).length)
    omega

theorem dec_int_length_lt {s i r} (h : dec_int s = some (i, r)) :
    r.length < s.length := by
  unfold dec_int at h
  split at h
  case _ c =>
    rcases hp : pdigits c with _ | ⟨n, rest⟩ <;> simp [hp] at h
    obtain ⟨hb, hi, hr⟩ := h
    subst hr
    have := pdigits_length_lt hp
    simp only [List.length_cons]
    omega
  case _ c =>
    rcases hp : pdigits c with _ | ⟨n, rest⟩ <;> simp [hp] at h
    obtain ⟨hb, hi, hr⟩ := h
    subst hr
    have := pdigits_length_lt hp
    simp only [List.length_cons]
    omega
  case _ hne1 hne2 =>
    rcases hp : pdigits s with _ | ⟨n, rest⟩ <;> simp [hp] at h
    obtain ⟨hb, hi, hr⟩ := h
    subst hr
    exact pdigits_length_lt hp

theorem parse_index_length_lt {s i r} (h : parse_index s = some (i, r)) :
    r.length < s.length := by
  unfold parse_index at h
  rcases hd : dec_int s with _ | ⟨j, rest⟩ <;> simp [hd] at h
  obtain ⟨hz, hi, hr⟩ := h
  subst hr
  exact dec_int_length_lt hd

theorem slash_index_length_lt {s i r} (h : slash_index s = some (i, r)) :
    r.length < s.length := by
  unfold slash_index at h
  split at h
  case _ s1 =>
    have := parse_index_length_lt h
    simp only [List.length_cons]
    omega
  case _ => exact absurd h (by simp)

theorem slash2_index_length_lt {s i r} (h : slash2_index s = some (i, r)) :
    r.length < s.length := by
  unfold slash2_index at h
  split at h
  case _ s1 =>
    have := parse_index_length_lt h
    simp only [List.length_cons]
    omega
  case _ s1 =>
    have := parse_index_length_lt h
    simp only [List.length_cons]
    omega
  case _ => exact absurd h (by simp)

theorem parse_face_point_length_lt {s p r} (h : parse_face_point s = some (p, r)) :
    r.length < s.length := by
  unfold parse_face_point at h
  rcases hv : parse_index s with _ | ⟨v, s1⟩ <;> simp [hv] at h
  have h1 := parse_index_length_lt hv
  rcases ht : slash_index s1 with _ | ⟨t, s2⟩ <;> simp [ht] at h
  · rcases hn : slash2_index s1 with _ | ⟨n, s2⟩ <;> simp [hn] at h
    · cases h.2; exact h1
    · cases h.2; have := slash2_index_length_lt hn; omega
  · have h2 := slash_index_length_lt ht
    rcases hn : slash2_index s2 with _ | ⟨n, s3⟩ <;> simp [hn] at h
    · cases h.2; omega
    · cases h.2; have := slash2_index_length_lt hn; omega

/-- The tail of `separated(3.., parse_face_point, ' ')`: repeatedly consume a
single space followed by one more point, backtracking over a trailing
separator that is not followed by a point. -/
def face_points_tail (fuel : Nat) (acc : List (FacePoint Int)) (s : List Char) :
    List (FacePoint Int) × List Char :=
  match fuel with
  | 0 => (acc, s)
  | fuel' + 1 =>
    match s with
    | ' ' :: s1 =>
      match parse_face_point s1 with
      | some (p, s2) => face_points_tail fuel' (acc ++ [p]) s2
      | none => (acc, ' ' :: s1)
    | _ => (acc, s)

/-- `separated(3.., parse_face_point, ' ')` from `parse_face`: at least three
point-tuples separated by single spaces.  One fuel unit per character plus
one always suffices: each separator-point pair strictly consumes
(`parse_face_point_length_lt`). -/
def parse_face_points : ByteParser (List (FacePoint Int)) := fun s =>
  match parse_face_point s with
  | none => none
  | some (p, s1) =>
    let (ps, s2) := face_points_tail (s1.length + 1) [p] s1
    if 3 ≤ ps.length then some (ps, s2) else none

/-- `calc_index` from `parse_face` in `src/obj/parser.rs`: a positive index is
made zero-based, a negative index is resolved relative to the current length,
saturating at zero (`len.saturating_add_signed(i)`). -/
def calc_index (i : Int) (len : Nat) : Nat :=
  if 0 < i then (i - 1).toNat else ((len : Int) + i).toNat

/-- The per-point index-resolution map applied inside `parse_face`:
each component is resolved against its own attribute array's length. -/
def resolve_point (obj : Obj) (p : FacePoint Int) : FacePoint Nat :=
  { v := calc_index p.v obj.vertex.length
    t := p.t.map fun i => calc_index i obj.texture.length
    n := p.n.map fun i => calc_index i obj.normal.length }

/-- `parse_face` from `src/obj/parser.rs`: parse the point list, then resolve
every signed index into an absolute zero-based offset. -/
def parse_face (s : List Char) (obj : Obj) : Option (Face × List Char) :=
  match parse_face_points s with
  | none => none
  | some (pts, rest) => some (pts.map (resolve_point obj), rest)

/-! ### Attribute-record parsers (`src/obj/parser.rs`) -/

/-- The decimal-float grammar recognised by winnow's `float` (the
keyword forms are never produced by the fixture inputs considered here):
optional sign, integer digits with optional fraction, or a bare fraction,
with an optional decimal exponent.  Values are modelled exactly in `ℚ`. -/
def pfloat : ByteParser ℚ := fun s =>
  let (neg, s1) :=
    match s with
    | '+' :: r => (false, r)
    | '-' :: r => (true, r)
    | _ => (false, s)
  let core : Option (ℚ × List Char) :=
    match pdigits s1 with
    | some (n, s2) =>
      match s2 with
      | '.' :: r =>
        let ds := r.takeWhile Char.isDigit
        some ((n : ℚ) + (ds.foldl (fun m c => 10 * m + (c.toNat - 48)) 0 : ℚ) /
          (10 : ℚ) ^ ds.length, r.drop ds.length)
      | _ => some ((n : ℚ), s2)
    | none =>
      match s1 with
      | '.' :: r =>
        match pdigits r with
        | some (m, s2) =>
          some ((m : ℚ) / (10 : ℚ) ^ (r.takeWhile Char.isDigit).length, s2)
        | none => none
      | _ => none
  match core with
  | none => none
  | some (q, s3) =>
    let (q2, s4) :=
      match s3 with
      | 'e' :: r =>
        match r with
        | '-' :: r2 =>
          match pdigits r2 with
          | some (e, s5) => (q / (10 : ℚ) ^ e, s5)
          | none => (q, s3)
        | '+' :: r2 =>
          match pdigits r2 with
          | some (e, s5) => (q * (10 : ℚ) ^ e, s5)
          | none => (q, s3)
        | _ =>
          match pdigits r with
          | some (e, s5) => (q * (10 : ℚ) ^ e, s5)
          | none => (q, s3)
      | 'E' :: r =>
        match r with
        | '-' :: r2 =>
          match pdigits r2 with
          | some (e, s5) => (q / (10 : ℚ) ^ e, s5)
          | none => (q, s3)
        | '+' :: r2 =>
          match pdigits r2 with
          | some (e, s5) => (q * (10 : ℚ) ^ e, s5)
          | none => (q, s3)
        | _ =>
          match pdigits r with
          | some (e, s5) => (q * (10 : ℚ) ^ e, s5)
          | none => (q, s3)
      | _ => (q, s3)
    some (if neg then -q2 else q2, s4)

/-- `parse_float3` from `src/obj/parser.rs`: `(float, ' ', float, ' ', float)`. -/
def parse_float3 : ByteParser Vec3 := fun s =>
  match pfloat s with
  | none => none
  | some (x, s1) =>
    match s1 with
    | ' ' :: s2 =>
      match pfloat s2 with
      | none => none
      | some (y, s3) =>
        match s3 with
        | ' ' :: s4 =>
          match pfloat s4 with
          | none => none
          | some (z, s5) => some ((x, y, z), s5)
        | _ => none
    | _ => none

/-- `parse_vt` from `src/obj/parser.rs`: `(float, opt(preceded(' ', float)))`,
with the second component defaulting to `0.0`. -/
def parse_vt : ByteParser Vec2 := fun s =>
  match pfloat s with
  | none => none
  | some (u, s1) =>
    match s1 with
    | ' ' :: s2 =>
      match pfloat s2 with
      | some (v, s3) => some ((u, v), s3)
      | none => some ((u, 0), s1)
    | _ => some ((u, 0), s1)

theorem word_length_lt {s w r} (h : word s = some (w, r)) : r.length < s.length := by
  unfold word at h
  set f : Char → Bool := fun c => !(c == ' ' || c == '\t' || c == '\r' || c == '\n') with hf
  by_cases he : (s.takeWhile f).isEmpty
  · rw [if_pos he] at h; cases h
  · rw [if_neg he] at h
    injection h with h'
    injection h' with h1 h2
    subst h2
    have h3 : (s.takeWhile f).length ≤ s.length := takeWhile_len_le _ _
    have h4 : 0 < (s.takeWhile f).length := by
      cases hq : s.takeWhile f with
      | nil => rw [hq] at he; simp at he
      | cons a l => simp [hq]
    have h5 := List.length_drop (l := s) (i := (s.takeWhile f).length)
    omega

/-- The tail of `separated(1.., word.try_map(String::from_utf8), ' ')` from
`parse_groups`. -/
def groups_tail (fuel : Nat) (acc : List String) (s : List Char) :
    List String × List Char :=
  match fuel with
  | 0 => (acc, s)
  | fuel' + 1 =>
    match s with
    | ' ' :: s1 =>
      match word s1 with
      | some (w, s2) => groups_tail fuel' (acc ++ [String.mk w]) s2
      | none => (acc, ' ' :: s1)
    | _ => (acc, s)

/-- `parse_groups` from `src/obj/parser.rs`: one or more space-separated
group names (UTF-8 validation is trivial in the character model).  One fuel
unit per character plus one always suffices (`word_length_lt`). -/
def parse_groups : ByteParser (List String) := fun s =>
  match word s with
  | none => none
  | some (w, s1) =>
    let (gs, s2) := groups_tail (s1.length + 1) [String.mk w] s1
    some (gs, s2)

/-- `parse_smoothing` from `src/obj/parser.rs`:
`alt((dec_uint, "off".value(0)))` with the `u32` range check. -/
def parse_smoothing : ByteParser Nat := fun s =>
  match pdigits s with
  | some (n, r) => if n ≤ 2 ^ 32 - 1 then some (n, r) else none
  | none =>
    match s with
    | 'o' :: 'f' :: 'f' :: r => some (0, r)
    | _ => none

/-- `parse_string` from `src/util.rs`: the non-empty remainder of the line
(UTF-8 validation is trivial in the character model). -/
def parse_string : ByteParser String := fun s =>
  match till_line_ending s with
  | none => none
  | some (cs, r) => if cs.isEmpty then none else some (String.mk cs, r)

/-- `parse_path` from `src/util.rs`: a path is a non-empty string
(`PathBuf` is modelled as the `String` it wraps). -/
def parse_path : ByteParser String := parse_string

/-! ### The parse loop (`parse_obj` from `src/obj/parser.rs`) -/

/-- `check_finalize` from `parse_obj`: when the accumulator holds at least
one face, push a copy of it as a finished submesh and clear only its face
list (all attributes are carried forward). -/
def check_finalize (current : Object) (obj : Obj) : Object × Obj :=
  if current.faces.isEmpty then (current, obj)
  else ({ current with faces := [] }, { obj with objects := obj.objects ++ [current] })

/-- One arm of `parse_obj`'s keyword dispatch: given the recognised keyword
and the input after it, update the document and accumulator, returning the
remaining input; `none` is a parse failure propagated by `?`. Unrecognised
keywords leave everything untouched. -/
def processStatement (key : List Char) (obj : Obj) (current : Object)
    (input : List Char) : Option (Obj × Object × List Char) :=
  if key = "v".toList then
    match parse_float3 input with
    | none => none
    | some (p, rest) => some ({ obj with vertex := obj.vertex ++ [p] }, current, rest)
  else if key = "vn".toList then
    match parse_float3 input with
    | none => none
    | some (p, rest) => some ({ obj with normal := obj.normal ++ [p] }, current, rest)
  else if key = "vt".toList then
    match parse_vt input with
    | none => none
    | some (p, rest) => some ({ obj with texture := obj.texture ++ [p] }, current, rest)
  else if key = "f".toList then
    match parse_face input obj with
    | none => none
    | some (f, rest) => some (obj, { current with faces := current.faces ++ [f] }, rest)
  else if key = "g".toList then
    let (cur, obj2) := check_finalize current obj
    match parse_groups input with
    | none => none
    | some (gs, rest) => some (obj2, { cur with groups := gs }, rest)
  else if key = "s".toList then
    let (cur, obj2) := check_finalize current obj
    match parse_smoothing input with
    | none => none
    | some (n, rest) => some (obj2, { cur with smoothing := n }, rest)
  else if key = "o".toList then
    let (cur, obj2) := check_finalize current obj
    match parse_string input with
    | none => none
    | some (str, rest) => some (obj2, { cur with name := some str }, rest)
  else if key = "mtllib".toList then
    let (cur, obj2) := check_finalize current obj
    match parse_path input with
    | none => none
    | some (str, rest) => some (obj2, { cur with mtllib := some str }, rest)
  else if key = "usemtl".toList then
    let (cur, obj2) := check_finalize current obj
    match parse_string input with
    | none => none
    | some (str, rest) => some (obj2, { cur with material := some str }, rest)
  else
    some (obj, current, input)

/-- The `while let Ok(key) = keyword(input)` loop of `parse_obj`, including
the final flush of a non-empty accumulator.  The fuel argument only bounds
the number of loop iterations; `parse_obj` supplies one unit per input
character plus one, which always suffices because every successful
`keyword` call strictly consumes input. -/
def parse_obj_go (fuel : Nat) (obj : Obj) (current : Object)
    (input : List Char) : Option Obj :=
  match keyword input with
  | none =>
    some (if current.faces.isEmpty then obj
          else { obj with objects := obj.objects ++ [current] })
  | some (key, rest) =>
    match fuel with
    | 0 => none
    | fuel' + 1 =>
      match processStatement key obj current rest with
      | none => none
      | some (obj2, cur2, rest2) =>
        match to_next_line rest2 with
        | none => none
        | some (_, rest3) => parse_obj_go fuel' obj2 cur2 rest3

/-- `parse_obj` from `src/obj/parser.rs`: run the statement loop on the
whole buffer starting from default document and accumulator state. -/
def parse_obj (input : List Char) : Option Obj :=
  parse_obj_go (input.length + 1) Obj.default Object.default input

/-! ### The `Faces` document model (`src/obj/mod.rs`) and
triangulation (`src/obj/mesh.rs`) -/

/-- `Faces` from `src/obj/mod.rs`: the four mutually exclusive per-submesh
face-topology shapes, with already-resolved zero-based indices. -/
inductive Faces : Type where
  | V : List (List Nat) → Faces
  | VT : List (List (Nat × Nat)) → Faces
  | VN : List (List (Nat × Nat)) → Faces
  | VTN : List (List (Nat × Nat × Nat)) → Faces
deriving DecidableEq, Repr

/-- Modelled from the spec: the `VertexData` record referenced by
`ObjMesh` in `src/obj/mesh.rs` (its declaration is not under `src/`); per
the Data Model it is the attribute store of three independent sequences,
exactly the arrays `triangulate` reads via `self.data`. -/
structure VertexData where
  vertex : List Vec3 := []
  normal : List Vec3 := []
  texture : List Vec2 := []
deriving DecidableEq, Repr, Inhabited

/-- `Vertices` from `src/obj/mesh.rs`: the deduplicated vertex arrays. -/
structure Vertices where
  positions : List Vec3
  normals : Option (List Vec3)
  uvs : Option (List Vec2)
deriving DecidableEq, Repr, Inhabited

/-- A `RandomState` value (the `ahash` hasher seed drawn per `triangulate`
call): the hash functions it induces on the four point-tuple types. -/
structure RandomState where
  hV : Nat → Nat
  hVT : Nat × Nat → Nat
  hVN : Nat × Nat → Nat
  hVTN : Nat × Nat × Nat → Nat

/-- `IndexSet::insert_full` over the insertion-ordered element list: find
the element through its hash (candidates must collide on the hash and then
compare equal) or append it, returning its slot. -/
def insert_full {T : Type} [DecidableEq T] (h : T → Nat) (points : List T)
    (x : T) : Nat × List T :=
  match points.findIdx? fun y => h y == h x && y == x with
  | some i => (i, points)
  | none => (points.length, points ++ [x])

/-- `collect` from `ObjMesh::triangulate` in `src/obj/mesh.rs`: fan-triangulate
every face in submission order, pushing for each triangle the slots of
`face[0]`, `face[i-1]`, `face[i]` obtained from the deduplicating set. -/
def collect {T : Type} [DecidableEq T] [Inhabited T] (h : T → Nat)
    (indices : List Nat) (faces : List (List T)) : List Nat × List T :=
  faces.foldl
    (fun acc face =>
      (List.range' 2 (face.length - 2)).foldl
        (fun acc2 i =>
          let (s0, pts0) := insert_full h acc2.2 face[0]!
          let (s1, pts1) := insert_full h pts0 face[i - 1]!
          let (s2, pts2) := insert_full h pts1 face[i]!
          (acc2.1 ++ [s0, s1, s2], pts2))
        acc)
    (indices, [])

/-- `Vec::get(i).ok_or(msg)?` used by the vertex-array materialisation. -/
def lookup {α : Type} (l : List α) (i : Nat) (msg : String) : Except String α :=
  match l.get? i with
  | some x => Except.ok x
  | none => Except.error msg

/-- The `for p in points { out.push(f(p)?) }` loops of `triangulate`. -/
def mapE {α β : Type} (f : α → Except String β) : List α → Except String (List β)
  | [] => Except.ok []
  | x :: xs =>
    match f x with
    | Except.error e => Except.error e
    | Except.ok y =>
      match mapE f xs with
      | Except.error e => Except.error e
      | Except.ok ys => Except.ok (y :: ys)

def ERROR_OOB_VERTEX : String := "vertex index is out of range"
def ERROR_OOB_NORMAL : String := "normal index is out of range"
def ERROR_OOB_UV : String := "uv index is out of range"

/-- `ObjMesh::triangulate` from `src/obj/mesh.rs`: triangulate and
deduplicate, then materialise the per-kind vertex arrays, failing with the
out-of-range messages when a resolved index misses its attribute array. -/
def triangulate (rs : RandomState) (data : VertexData) (faces : Faces) :
    Except String (List Nat × Vertices) :=
  match faces with
  | Faces.V fs =>
    let (indices, points) := collect rs.hV [] fs
    match mapE (fun v => lookup data.vertex v ERROR_OOB_VERTEX) points with
    | Except.error e => Except.error e
    | Except.ok positions =>
      Except.ok (indices, { positions := positions, normals := none, uvs := none })
  | Faces.VT fs =>
    let (indices, points) := collect rs.hVT [] fs
    match mapE (fun p =>
        match lookup data.vertex p.1 ERROR_OOB_VERTEX with
        | Except.error e => Except.error e
        | Except.ok pos =>
          match lookup data.texture p.2 ERROR_OOB_UV with
          | Except.error e => Except.error e
          | Except.ok uv => Except.ok (pos, uv)) points with
    | Except.error e => Except.error e
    | Except.ok pu =>
      Except.ok (indices,
        { positions := pu.map Prod.fst, normals := none, uvs := some (pu.map Prod.snd) })
  | Faces.VN fs =>
    let (indices, points) := collect rs.hVN [] fs
    match mapE (fun p =>
        match lookup data.vertex p.1 ERROR_OOB_VERTEX with
        | Except.error e => Except.error e
        | Except.ok pos =>
          match lookup data.normal p.2 ERROR_OOB_NORMAL with
          | Except.error e => Except.error e
          | Except.ok nor => Except.ok (pos, nor)) points with
    | Except.error e => Except.error e
    | Except.ok pn =>
      Except.ok (indices,
        { positions := pn.map Prod.fst, normals := some (pn.map Prod.snd), uvs := none })
  | Faces.VTN fs =>
    let (indices, points) := collect rs.hVTN [] fs
    match mapE (fun p =>
        match lookup data.vertex p.1 ERROR_OOB_VERTEX with
        | Except.error e => Except.error e
        | Except.ok pos =>
          match lookup data.normal p.2.2 ERROR_OOB_NORMAL with
          | Except.error e => Except.error e
          | Except.ok nor =>
            match lookup data.texture p.2.1 ERROR_OOB_UV with
            | Except.error e => Except.error e
            | Except.ok uv => Except.ok (pos, nor, uv)) points with
    | Except.error e => Except.error e
    | Except.ok pnu =>
      Except.ok (indices,
        { positions := pnu.map Prod.fst,
          normals := some (pnu.map fun p => p.2.1),
          uvs := some (pnu.map fun p => p.2.2) })

/-! ### The spec-level face-topology shape model -/

/-- The four Face Topology shapes (Glossary / §3 of the spec,
`Faces`' four constructors). -/
inductive Shape : Type where
  | v | vt | vn | vtn
deriving DecidableEq, Repr

/-- The error taxonomy of §7 of the spec. -/
inductive ObjError : Type where
  | malformedGeometry
  | invalidIndex
  | tooFewFacePoints
  | inconsistentFaceShape
  | indexOutOfRange
  | malformedStatement
deriving DecidableEq, Repr

/-- The shape of one point-tuple, determined by its separator pattern:
`v`, `v/t`, `v//n` or `v/t/n`. -/
def shapeOf {T : Type} (p : FacePoint T) : Shape :=
  match p.t, p.n with
  | none, none => Shape.v
  | some _, none => Shape.vt
  | none, some _ => Shape.vn
  | some _, some _ => Shape.vtn

/-- Modelled from the spec: the shape-enforcing face decoder of §4.3/§4.4
(the parser snapshot that populates the `Faces` variants is not under
`src/`; only the `Faces` type and its `trimesh` consumers are).  "Shape
inference happens only on the first face statement encountered after a
submesh boundary; it fixes the Face Topology variant for that submesh.
Every subsequent face statement in the same submesh is decoded against
that already-fixed shape; a point-tuple whose separator pattern does not
match the fixed shape fails with `InconsistentFaceShape`." -/
def decode_face {T : Type} (fixed : Option Shape) (pts : List (FacePoint T)) :
    Except ObjError Shape :=
  match fixed with
  | none =>
    match pts with
    | [] => Except.error ObjError.tooFewFacePoints
    | p :: rest =>
      if rest.all fun q => shapeOf q = shapeOf p then Except.ok (shapeOf p)
      else Except.error ObjError.inconsistentFaceShape
  | some sh =>
    if pts.all fun q => shapeOf q = sh then Except.ok sh
    else Except.error ObjError.inconsistentFaceShape

/-! ### The hash-free reference description of the deduplicating set -/

section Dedup

variable {T : Type} [DecidableEq T]

/-- Inserting one element into the insertion-ordered set (no-op when
already present). -/
def insertOne (pts : List T) (x : T) : List T :=
  if x ∈ pts then pts else pts ++ [x]

/-- Inserting a whole emission stream. -/
def insertAll (pts : List T) (xs : List T) : List T :=
  xs.foldl insertOne pts

/-- The slot sequence produced while inserting a stream (for an element
already present `indexOf` is its first position; for a new element it is
the current size, which is exactly where it gets appended). -/
def slots : List T → List T → List Nat
  | _, [] => []
  | pts, x :: xs => pts.indexOf x :: slots (insertOne pts x) xs

/-- One index-buffer step of `collect`. -/
def dedupStep (st : List Nat × List T) (x : T) : List Nat × List T :=
  (st.1 ++ [st.2.indexOf x], insertOne st.2 x)

/-- Running `collect`'s per-corner work over a stream of corners. -/
def dedupRun (st : List Nat × List T) (xs : List T) : List Nat × List T :=
  xs.foldl dedupStep st

/-- The first-occurrence subsequence of a stream: each distinct element in
the order of its first appearance. -/
def firstOcc : List T → List T
  | [] => []
  | x :: xs => x :: firstOcc (xs.filter fun y => y != x)
termination_by l => l.length
decreasing_by
  have := List.length_filter_le (fun y => y != x) xs
  simp only [List.length_cons]
  omega

/-- The emission stream of one face under fan triangulation. -/
def corners [Inhabited T] (face : List T) : List T :=
  (List.range' 2 (face.length - 2)).flatMap fun i => [face[0]!, face[i - 1]!, face[i]!]

/-- The emission stream of a face list. -/
def stream [Inhabited T] (faces : List (List T)) : List T :=
  faces.flatMap corners

theorem insert_full_eq (h : T → Nat) (pts : List T) (x : T) :
    insert_full h pts x = (pts.indexOf x, insertOne pts x) := by
  have hpred : (fun y => h y == h x && y == x) = fun y => y == x := by
    funext y
    by_cases hyx : y = x
    · subst hyx; simp
    · simp [hyx]
  unfold insert_full
  rw [hpred]
  by_cases hm : x ∈ pts
  · have hfind : ∀ (l : List T) (k : Nat), x ∈ l →
        l.findIdx? (fun y => y == x) k = some (l.indexOf x + k) := by
      intro l
      induction l with
      | nil => intro k hk; simp at hk
      | cons a l ih =>
        intro k hk
        by_cases hax : a = x
        · subst hax
          simp [List.findIdx?_cons, List.indexOf_cons_self]
        · have hxl : x ∈ l := by
            rcases List.mem_cons.1 hk with hk1 | hk1
            · exact absurd hk1.symm hax
            · exact hk1
          rw [List.findIdx?_cons, if_neg (by simp [hax]), ih (k + 1) hxl,
            List.indexOf_cons_ne _ hax]
          congr 1
          omega
    rw [hfind pts 0 hm]
    simp [insertOne, hm]
  · have hfind : ∀ (l : List T) (k : Nat), x ∉ l →
        l.findIdx? (fun y => y == x) k = none := by
      intro l
      induction l with
      | nil => intro k _; simp
      | cons a l ih =>
        intro k hk
        have hax : ¬(a = x) := fun hh => hk (by rw [hh]; exact List.mem_cons_self _ _)
        rw [List.findIdx?_cons]
        simp only [if_neg (by simp [hax] : ¬((a == x) = true))]
        exact ih (k + 1) fun hh => hk (List.mem_cons_of_mem _ hh)
    rw [hfind pts 0 hm]
    simp [insertOne, hm, List.indexOf_of_not_mem hm]

theorem dedupRun_append (st : List Nat × List T) (xs ys : List T) :
    dedupRun st (xs ++ ys) = dedupRun (dedupRun st xs) ys :=
  List.foldl_append _ _ _ _

theorem foldl_dedupRun_flatMap {β : Type} (g : β → List T) :
    ∀ (ys : List β) (st : List Nat × List T),
      ys.foldl (fun a y => dedupRun a (g y)) st = dedupRun st (ys.flatMap g) := by
  intro ys
  induction ys with
  | nil => intro st; simp [dedupRun]
  | cons y ys ih =>
    intro st
    rw [List.foldl_cons, ih, List.flatMap_cons, dedupRun_append]

theorem collect_eq_dedupRun [Inhabited T] (h : T → Nat) (ind : List Nat)
    (faces : List (List T)) :
    collect h ind faces = dedupRun (ind, []) (stream faces) := by
  unfold collect stream
  rw [← foldl_dedupRun_flatMap corners faces (ind, [])]
  congr 1
  funext acc face
  unfold corners
  rw [← foldl_dedupRun_flatMap (fun i => [face[0]!, face[i - 1]!, face[i]!])]
  congr 1
  funext acc2 i
  simp only [insert_full_eq]
  simp [dedupRun, dedupStep, List.append_assoc]

theorem dedupRun_spec : ∀ (xs : List T) (ind : List Nat) (pts : List T),
    dedupRun (ind, pts) xs = (ind ++ slots pts xs, insertAll pts xs) := by
  intro xs
  induction xs with
  | nil => intro ind pts; simp [dedupRun, slots, insertAll]
  | cons x xs ih =>
    intro ind pts
    show dedupRun (dedupStep (ind, pts) x) xs = _
    rw [show dedupStep (ind, pts) x = (ind ++ [pts.indexOf x], insertOne pts x) from rfl,
      ih]
    simp [slots, insertAll, insertOne, dedupRun, List.append_assoc]

theorem insertAll_append_suffix : ∀ (xs : List T) (pts : List T),
    ∃ e, insertAll pts xs = pts ++ e := by
  intro xs
  induction xs with
  | nil => intro pts; exact ⟨[], by simp [insertAll]⟩
  | cons x xs ih =>
    intro pts
    show ∃ e, insertAll (insertOne pts x) xs = pts ++ e
    by_cases hm : x ∈ pts
    · rw [insertOne, if_pos hm]
      exact ih pts
    · rw [insertOne, if_neg hm]
      rcases ih (pts ++ [x]) with ⟨e, he⟩
      exact ⟨[x] ++ e, by rw [he, List.append_assoc]⟩

theorem mem_insertOne_self (pts : List T) (x : T) : x ∈ insertOne pts x := by
  unfold insertOne
  by_cases hm : x ∈ pts
  · rwa [if_pos hm]
  · rw [if_neg hm]; simp

theorem mem_insertOne {pts : List T} {x y : T} :
    y ∈ insertOne pts x ↔ y ∈ pts ∨ y = x := by
  unfold insertOne
  by_cases hm : x ∈ pts
  · rw [if_pos hm]
    exact ⟨Or.inl, fun hh => hh.elim id fun he => he ▸ hm⟩
  · rw [if_neg hm]; simp

theorem indexOf_append_right_self {pts : List T} {x : T} (hm : x ∉ pts) (e : List T) :
    (pts ++ [x] ++ e).indexOf x = pts.length := by
  rw [List.append_assoc, List.indexOf_append_of_not_mem hm]
  simp [List.indexOf_cons_self]

theorem insertOne_indexOf (pts : List T) (x : T) :
    (insertOne pts x).indexOf x = pts.indexOf x := by
  unfold insertOne
  by_cases hm : x ∈ pts
  · rw [if_pos hm]
  · rw [if_neg hm, List.indexOf_of_not_mem hm]
    have h2 := indexOf_append_right_self hm ([] : List T)
    rw [List.append_nil] at h2
    exact h2

theorem slots_eq_map_indexOf : ∀ (xs : List T) (pts : List T),
    slots pts xs = xs.map fun x => (insertAll pts xs).indexOf x := by
  intro xs
  induction xs with
  | nil => intro pts; simp [slots]
  | cons x xs ih =>
    intro pts
    have hall : insertAll pts (x :: xs) = insertAll (insertOne pts x) xs := rfl
    rw [slots, List.map_cons, hall, ih (insertOne pts x)]
    congr 1
    rcases insertAll_append_suffix xs (insertOne pts x) with ⟨e, he⟩
    rw [he, List.indexOf_append_of_mem (mem_insertOne_self pts x), insertOne_indexOf]

theorem nodup_insertAll : ∀ (xs : List T) (pts : List T),
    pts.Nodup → (insertAll pts xs).Nodup := by
  intro xs
  induction xs with
  | nil => intro pts hn; exact hn
  | cons x xs ih =>
    intro pts hn
    refine ih (insertOne pts x) ?_
    unfold insertOne
    by_cases hm : x ∈ pts
    · rwa [if_pos hm]
    · rw [if_neg hm, List.nodup_append]
      refine ⟨hn, List.nodup_singleton x, ?_⟩
      intro a ha hb
      have hb2 : a = x := by simpa using hb
      subst hb2
      exact hm ha

theorem mem_insertAll : ∀ (xs : List T) (pts : List T) (y : T),
    y ∈ insertAll pts xs ↔ y ∈ pts ∨ y ∈ xs := by
  intro xs
  induction xs with
  | nil => intro pts y; simp [insertAll]
  | cons x xs ih =>
    intro pts y
    show y ∈ insertAll (insertOne pts x) xs ↔ _
    rw [ih (insertOne pts x) y, mem_insertOne]
    constructor
    · rintro ((hy | hy) | hy)
      · exact Or.inl hy
      · exact Or.inr (by rw [hy]; exact List.mem_cons_self _ _)
      · exact Or.inr (List.mem_cons_of_mem _ hy)
    · rintro (hy | hy)
      · exact Or.inl (Or.inl hy)
      · rcases List.mem_cons.1 hy with hy | hy
        · exact Or.inl (Or.inr hy)
        · exact Or.inr hy

theorem insertAll_eq_firstOcc_filter : ∀ (xs : List T) (pts : List T),
    insertAll pts xs = pts ++ firstOcc (xs.filter fun y => !decide (y ∈ pts)) := by
  intro xs
  induction xs with
  | nil => intro pts; simp [insertAll, firstOcc]
  | cons x xs ih =>
    intro pts
    show insertAll (insertOne pts x) xs = _
    by_cases hm : x ∈ pts
    · rw [insertOne, if_pos hm, ih pts]
      congr 2
      rw [List.filter_cons]
      simp [hm]
    · rw [insertOne, if_neg hm, ih (pts ++ [x])]
      rw [List.filter_cons]
      simp only [hm, decide_False, Bool.not_false, if_pos]
      rw [firstOcc]
      have hfeq : (xs.filter fun y => !decide (y ∈ pts)).filter (fun y => y != x)
          = xs.filter fun y => !decide (y ∈ pts ++ [x]) := by
        rw [List.filter_filter]
        refine List.filter_congr fun a _ => ?_
        by_cases hax : a = x
        · subst hax; simp
        · by_cases hap : a ∈ pts <;> simp [hax, hap]
      rw [hfeq]
      simp [List.append_assoc]

theorem insertAll_nil_eq_firstOcc (xs : List T) : insertAll [] xs = firstOcc xs := by
  rw [insertAll_eq_firstOcc_filter]
  simp

theorem getD_indexOf {l : List T} {x : T} (hm : x ∈ l) (d : T) :
    l.getD (l.indexOf x) d = x := by
  have hlt : l.indexOf x < l.length := List.indexOf_lt_length.2 hm
  rw [List.getD_eq_getElem _ _ hlt]
  have := List.indexOf_get (a := x) (l := l) hlt
  simpa [List.get_eq_getElem] using this

end Dedup

/-! ### Helper lemmas about the materialisation loops -/

theorem mapE_ok_length {α β : Type} {f : α → Except String β} :
    ∀ {l : List α} {ys : List β}, mapE f l = Except.ok ys → ys.length = l.length := by
  intro l
  induction l with
  | nil => intro ys h; cases h; rfl
  | cons x xs ih =>
    intro ys h
    unfold mapE at h
    rcases hx : f x with e | y <;> rw [hx] at h
    · cases h
    · rcases hxs : mapE f xs with e | ys2 <;> rw [hxs] at h
      · cases h
      · cases h
        simp [ih hxs]

theorem mapE_error_of_mem {α β : Type} {f : α → Except String β} :
    ∀ {l : List α} {x : α} {e : String}, x ∈ l → f x = Except.error e →
      ∃ e2, mapE f l = Except.error e2 := by
  intro l
  induction l with
  | nil => intro x e hx _; simp at hx
  | cons a l ih =>
    intro x e hx hfx
    rcases ha : f a with ea | ya
    · exact ⟨ea, by unfold mapE; rw [ha]⟩
    · rcases List.mem_cons.1 hx with hx1 | hx1
      · subst hx1; rw [hfx] at ha; cases ha
      · rcases ih hx1 hfx with ⟨e2, he2⟩
        exact ⟨e2, by unfold mapE; rw [ha, he2]⟩

theorem mapE_error_src {α β : Type} {f : α → Except String β} :
    ∀ {l : List α} {e : String}, mapE f l = Except.error e →
      ∃ x ∈ l, f x = Except.error e := by
  intro l
  induction l with
  | nil => intro e h; cases h
  | cons a l ih =>
    intro e h
    unfold mapE at h
    rcases ha : f a with ea | ya <;> rw [ha] at h
    · cases h
      exact ⟨a, List.mem_cons_self _ _, ha⟩
    · rcases hl : mapE f l with el | yl <;> rw [hl] at h
      · cases h
        rcases ih hl with ⟨x, hx, hfx⟩
        exact ⟨x, List.mem_cons_of_mem _ hx, hfx⟩
      · cases h

theorem mapE_ok_get {α β : Type} {f : α → Except String β} :
    ∀ {l : List α} {ys : List β}, mapE f l = Except.ok ys →
      ∀ x ∈ l, ∃ y, f x = Except.ok y := by
  intro l
  induction l with
  | nil => intro ys _ x hx; simp at hx
  | cons a l ih =>
    intro ys h x hx
    unfold mapE at h
    rcases ha : f a with ea | ya <;> rw [ha] at h
    · cases h
    · rcases hl : mapE f l with el | yl <;> rw [hl] at h
      · cases h
      · rcases List.mem_cons.1 hx with hx1 | hx1
        · exact ⟨ya, hx1 ▸ ha⟩
        · exact ih hl x hx1

/-! ### Claim theorems -/

/-- C2: for attribute-sequence length `N`, a positive face index `i` with
`1 ≤ i ≤ N` resolves to the absolute zero-based index `i - 1`; a negative
index `-k` with `1 ≤ k ≤ N` resolves to `N - k`; a zero index always fails
the parse; and `parse_face` resolves each tuple component against its own
attribute kind's current length (vertex, texcoord, normal independently). -/
theorem claim_C2_index_resolution :
    (∀ (i : Int) (N : Nat), 1 ≤ i → i ≤ (N : Int) → (calc_index i N : Int) = i - 1)
    ∧ (∀ (k N : Nat), 1 ≤ k → k ≤ N → calc_index (-(k : Int)) N = N - k)
    ∧ (∀ (s : List Char) (i : Int) (r : List Char),
        dec_int s = some (i, r) → i = 0 → parse_index s = none)
    ∧ (∀ (s : List Char) (v : Int) (r : List Char),
        parse_index s = some (v, r) → v ≠ 0)
    ∧ (∀ (s : List Char) (obj : Obj) (f : Face) (r : List Char),
        parse_face s obj = some (f, r) →
        ∃ pts, parse_face_points s = some (pts, r) ∧
          f = pts.map fun p =>
            FacePoint.mk (calc_index p.v obj.vertex.length)
              (p.t.map fun i => calc_index i obj.texture.length)
              (p.n.map fun i => calc_index i obj.normal.length)) := by
  refine ⟨?_, ?_, ?_, ?_, ?_⟩
  · intro i N h1 h2
    unfold calc_index
    rw [if_pos (by omega)]
    omega
  · intro k N h1 h2
    unfold calc_index
    rw [if_neg (by omega)]
    omega
  · intro s i r h h0
    unfold parse_index
    rw [h]
    simp [h0]
  · intro s v r h
    unfold parse_index at h
    rcases hd : dec_int s with _ | ⟨j, rest⟩ <;> simp [hd] at h
    exact h.2.1 ▸ h.1
  · intro s obj f r h
    unfold parse_face at h
    rcases hp : parse_face_points s with _ | ⟨pts, rest⟩ <;> simp [hp] at h
    obtain ⟨h1, h2⟩ := h
    subst h2
    exact ⟨pts, by simp [hp], h1.symm⟩

/-- Witness for C2 at concrete inputs: `N = 3`, positive index `2`,
negative index `-2`, the zero literal `0/1`, and the face `1 2/1 3//2`
resolved against a three-element attribute store. -/
theorem claim_C2_index_resolution_witness :
    ((1 : Int) ≤ 2 ∧ (2 : Int) ≤ ((3 : Nat) : Int) ∧ (calc_index 2 3 : Int) = 2 - 1)
    ∧ (1 ≤ 2 ∧ 2 ≤ 3 ∧ calc_index (-(2 : Int)) 3 = 3 - 2)
    ∧ (dec_int ("0/1".toList) = some (0, "/1".toList) ∧ parse_index ("0/1".toList) = none)
    ∧ (parse_face ("1 2/1 3//2".toList)
          { vertex := [(1,1,1),(2,2,2),(3,3,3)], normal := [(0,0,1),(0,1,0)],
            texture := [(0,0),(1,1)] } =
        some ([⟨0, none, none⟩, ⟨1, some 0, none⟩, ⟨2, none, some 1⟩], []) ∧
      ∃ pts, parse_face_points ("1 2/1 3//2".toList) = some (pts, []) ∧
        ([⟨0, none, none⟩, ⟨1, some 0, none⟩, ⟨2, none, some 1⟩] : Face)
          = pts.map fun p =>
            FacePoint.mk (calc_index p.v 3)
              (p.t.map fun i => calc_index i 2)
              (p.n.map fun i => calc_index i 2)) := by
  refine ⟨⟨by decide, by decide, claim_C2_index_resolution.1 2 3 (by decide) (by decide)⟩,
    ⟨by decide, by decide, claim_C2_index_resolution.2.1 2 3 (by decide) (by decide)⟩,
    ⟨by decide, claim_C2_index_resolution.2.2.1 ("0/1".toList) 0 ("/1".toList)
      (by decide) rfl⟩,
    ⟨by decide, ?_⟩⟩
  exact claim_C2_index_resolution.2.2.2.2 ("1 2/1 3//2".toList)
    { vertex := [(1,1,1),(2,2,2),(3,3,3)], normal := [(0,0,1),(0,1,0)],
      texture := [(0,0),(1,1)] }
    [⟨0, none, none⟩, ⟨1, some 0, none⟩, ⟨2, none, some 1⟩] [] (by decide)

/-- C10: index resolution at face-parse time performs no bounds checking: a
positive index `i > N` is accepted and resolves to the out-of-range offset
`i - 1`; a negative index `-k` with `k > N` saturates to absolute index `0`
instead of failing; face-parse success is independent of the attribute
store; the out-of-range reference is only caught later by `triangulate`. -/
theorem claim_C10_no_parse_time_bounds_check :
    (∀ (i : Int) (N : Nat), (N : Int) < i →
        (calc_index i N : Int) = i - 1 ∧ N ≤ calc_index i N)
    ∧ (∀ (k N : Nat), N < k → calc_index (-(k : Int)) N = 0)
    ∧ (∀ (s : List Char) (obj1 obj2 : Obj),
        (parse_face s obj1).isSome = (parse_face s obj2).isSome)
    ∧ (∀ rs : RandomState,
        parse_face ("5 6 7".toList) { vertex := [(0,0,0),(0,0,0),(0,0,0)] } =
          some ([⟨4, none, none⟩, ⟨5, none, none⟩, ⟨6, none, none⟩], [])
        ∧ triangulate rs ⟨[(0,0,0),(0,0,0),(0,0,0)], [], []⟩ (Faces.V [[4,5,6]]) =
          Except.error ERROR_OOB_VERTEX) := by
  refine ⟨?_, ?_, ?_, ?_⟩
  · intro i N h
    unfold calc_index
    rw [if_pos (by omega)]
    omega
  · intro k N h
    unfold calc_index
    rw [if_neg (by omega)]
    omega
  · intro s obj1 obj2
    unfold parse_face
    rcases hp : parse_face_points s with _ | ⟨pts, rest⟩ <;> simp [hp]
  · intro rs
    refine ⟨by decide, ?_⟩
    have hc : collect rs.hV [] [[4, 5, 6]] = ([0, 1, 2], [4, 5, 6]) := by
      rw [collect_eq_dedupRun]
      decide
    show triangulate rs ⟨[(0,0,0),(0,0,0),(0,0,0)], [], []⟩ (Faces.V [[4,5,6]]) =
      Except.error ERROR_OOB_VERTEX
    unfold triangulate
    dsimp only
    rw [hc]
    rfl

/-- Witness for C10 at concrete inputs: `N = 3` with `i = 7`, `k = 9`, the
face statement `5 6 7` against two different stores, and the all-zero
hasher seed. -/
theorem claim_C10_no_parse_time_bounds_check_witness :
    (((3 : Nat) : Int) < 7 ∧ (calc_index 7 3 : Int) = 7 - 1 ∧ 3 ≤ calc_index 7 3)
    ∧ (3 < 9 ∧ calc_index (-(9 : Int)) 3 = 0)
    ∧ (parse_face ("5 6 7".toList) { vertex := [] }).isSome =
        (parse_face ("5 6 7".toList) { vertex := [(0,0,0),(0,0,0),(0,0,0)] }).isSome
    ∧ (parse_face ("5 6 7".toList) { vertex := [(0,0,0),(0,0,0),(0,0,0)] } =
        some ([⟨4, none, none⟩, ⟨5, none, none⟩, ⟨6, none, none⟩], [])
      ∧ triangulate ⟨fun _ => 0, fun _ => 0, fun _ => 0, fun _ => 0⟩
          ⟨[(0,0,0),(0,0,0),(0,0,0)], [], []⟩ (Faces.V [[4,5,6]]) =
          Except.error ERROR_OOB_VERTEX) := by
  have h1 := claim_C10_no_parse_time_bounds_check.1 7 3 (by decide)
  exact ⟨⟨by decide, h1.1, h1.2⟩,
    ⟨by decide, claim_C10_no_parse_time_bounds_check.2.1 9 3 (by decide)⟩,
    claim_C10_no_parse_time_bounds_check.2.2.1 ("5 6 7".toList)
      { vertex := [] } { vertex := [(0,0,0),(0,0,0),(0,0,0)] },
    claim_C10_no_parse_time_bounds_check.2.2.2
      ⟨fun _ => 0, fun _ => 0, fun _ => 0, fun _ => 0⟩⟩

/-- The full characterisation of `collect`: the index buffer is the emission
stream mapped through the slot of each tuple in the final deduplicated set,
and that set is independent of the hasher. -/
theorem collect_spec {T : Type} [DecidableEq T] [Inhabited T] (h : T → Nat)
    (ind : List Nat) (faces : List (List T)) :
    collect h ind faces =
      (ind ++ (stream faces).map fun x => (insertAll [] (stream faces)).indexOf x,
       insertAll [] (stream faces)) := by
  rw [collect_eq_dedupRun, dedupRun_spec, slots_eq_map_indexOf]

theorem corners_length {T : Type} [Inhabited T] (face : List T) :
    (corners face).length = 3 * (face.length - 2) := by
  unfold corners
  rw [List.length_flatMap]
  have hmap : (List.map (List.length ∘ fun i => [face[0]!, face[i - 1]!, face[i]!])
      (List.range' 2 (face.length - 2))) = List.replicate (face.length - 2) 3 := by
    rw [show (List.length ∘ fun i => [face[0]!, face[i - 1]!, face[i]!])
        = Function.const Nat 3 from rfl, List.map_const, List.length_range']
  rw [hmap, List.sum_replicate, smul_eq_mul]
  omega

theorem stream_length {T : Type} [Inhabited T] (faces : List (List T)) :
    (stream faces).length = 3 * (faces.map fun f => f.length - 2).sum := by
  unfold stream
  rw [List.length_flatMap]
  have hmap : List.map (List.length ∘ corners) faces
      = List.map (fun f => 3 * (f.length - 2)) faces :=
    List.map_congr_left fun f _ => corners_length f
  rw [hmap, show (fun f : List T => 3 * (f.length - 2))
      = fun f : List T => 3 * ((fun g : List T => g.length - 2) f) from rfl,
    List.sum_map_mul_left]

/-- C3: triangulating expands every polygon, in submission order, into
exactly `n - 2` triangles, emitting the fan corners
`face[0], face[i-1], face[i]` for `i` in `2..n`: decoding the index buffer
through the deduplicated tuple array reproduces exactly that corner stream,
the index buffer holds three entries per triangle, and the quad
`[0, 1, 2, 3]` yields the index buffer `[0, 1, 2, 0, 2, 3]`. -/
theorem claim_C3_fan_triangulation {T : Type} [DecidableEq T] [Inhabited T]
    (h : T → Nat) (faces : List (List T)) (d : T) :
    ((collect h [] faces).1.map fun j => (collect h [] faces).2.getD j d)
      = faces.flatMap (fun face =>
          (List.range' 2 (face.length - 2)).flatMap fun i =>
            [face[0]!, face[i - 1]!, face[i]!])
    ∧ (collect h [] faces).1.length = 3 * (faces.map fun f => f.length - 2).sum
    ∧ ∀ h2 : Nat → Nat, (collect h2 [] ([[0, 1, 2, 3]] : List (List Nat))).1
        = [0, 1, 2, 0, 2, 3] := by
  refine ⟨?_, ?_, ?_⟩
  · rw [collect_spec]
    dsimp only
    rw [List.nil_append, List.map_map]
    have hpt : ∀ x ∈ stream faces,
        ((fun j => (insertAll [] (stream faces)).getD j d) ∘
          fun x => (insertAll [] (stream faces)).indexOf x) x = id x := fun x hx =>
      getD_indexOf ((mem_insertAll _ _ _).2 (Or.inr hx)) d
    rw [List.map_congr_left hpt, List.map_id]
    rfl
  · rw [collect_spec]
    dsimp only
    rw [List.nil_append, List.length_map, stream_length]
  · intro h2
    rw [collect_spec]
    decide

/-- Witness instantiating the quad conjunct of C3 through its general
conjuncts at the constant hasher. -/
theorem claim_C3_fan_triangulation_witness :
    ((collect (fun _ => (0 : Nat)) [] ([[0, 1, 2, 3]] : List (List Nat))).1.map
        fun j => (collect (fun _ => (0 : Nat)) [] ([[0, 1, 2, 3]] : List (List Nat))).2.getD j 0)
      = ([[0, 1, 2, 3]] : List (List Nat)).flatMap (fun face =>
          (List.range' 2 (face.length - 2)).flatMap fun i =>
            [face[0]!, face[i - 1]!, face[i]!])
    ∧ (collect (fun _ => (0 : Nat)) [] ([[0, 1, 2, 3]] : List (List Nat))).1
        = [0, 1, 2, 0, 2, 3] :=
  ⟨(claim_C3_fan_triangulation (fun _ => 0) [[0, 1, 2, 3]] 0).1,
   (claim_C3_fan_triangulation (fun _ => 0) [[0, 1, 2, 3]] 0).2.2 (fun _ => 0)⟩

/-- C4: deduplication is order-preserving and idempotent: the deduplicated
tuple array has no duplicates; the index buffer is the emission stream
mapped through each tuple's slot, so equal corners (in the same or
different faces) receive equal slot values; and the array is exactly the
first-occurrence subsequence of the emission stream, i.e. each distinct
tuple's slot is its first-seen position in emission order. -/
theorem claim_C4_dedup_order_preserving {T : Type} [DecidableEq T] [Inhabited T]
    (h : T → Nat) (faces : List (List T)) (d : T) :
    (collect h [] faces).2.Nodup
    ∧ (collect h [] faces).1
        = ((stream faces).map fun x => (collect h [] faces).2.indexOf x)
    ∧ (∀ i j, i < (stream faces).length → j < (stream faces).length →
        (stream faces).getD i d = (stream faces).getD j d →
        (collect h [] faces).1.getD i 0 = (collect h [] faces).1.getD j 0)
    ∧ (collect h [] faces).2 = firstOcc (stream faces) := by
  refine ⟨?_, ?_, ?_, ?_⟩
  · rw [collect_spec]
    exact nodup_insertAll (stream faces) [] List.nodup_nil
  · rw [collect_spec]
    dsimp only
    rw [List.nil_append]
  · intro i j hi hj hij
    rw [collect_spec]
    dsimp only
    rw [List.nil_append]
    have hi2 : i < ((stream faces).map fun x =>
        (insertAll [] (stream faces)).indexOf x).length := by
      rwa [List.length_map]
    have hj2 : j < ((stream faces).map fun x =>
        (insertAll [] (stream faces)).indexOf x).length := by
      rwa [List.length_map]
    rw [List.getD_eq_getElem _ _ hi2, List.getD_eq_getElem _ _ hj2,
      List.getElem_map, List.getElem_map]
    rw [List.getD_eq_getElem _ _ hi, List.getD_eq_getElem _ _ hj] at hij
    rw [hij]
  · rw [collect_spec]
    exact insertAll_nil_eq_firstOcc (stream faces)

/-- Witness for C4: two triangles referencing the same three tuples; the
corners at stream positions 0 and 3 are equal and receive the same slot. -/
theorem claim_C4_dedup_order_preserving_witness :
    ((0 : Nat) < (stream ([[5, 6, 7], [5, 6, 7]] : List (List Nat))).length
      ∧ (3 : Nat) < (stream ([[5, 6, 7], [5, 6, 7]] : List (List Nat))).length
      ∧ (stream ([[5, 6, 7], [5, 6, 7]] : List (List Nat))).getD 0 0
          = (stream ([[5, 6, 7], [5, 6, 7]] : List (List Nat))).getD 3 0)
    ∧ (collect (fun n => n + 1) [] ([[5, 6, 7], [5, 6, 7]] : List (List Nat))).1.getD 0 0
        = (collect (fun n => n + 1) [] ([[5, 6, 7], [5, 6, 7]] : List (List Nat))).1.getD 3 0 :=
  ⟨⟨by decide, by decide, by decide⟩,
   (claim_C4_dedup_order_preserving (fun n => n + 1) [[5, 6, 7], [5, 6, 7]] 0).2.2.1
     0 3 (by decide) (by decide) (by decide)⟩

/-- The per-face point counts of a `Faces` value. -/
def faceLens : Faces → List Nat
  | Faces.V fs => fs.map fun f => f.length
  | Faces.VT fs => fs.map fun f => f.length
  | Faces.VN fs => fs.map fun f => f.length
  | Faces.VTN fs => fs.map fun f => f.length

theorem collect_fst_length {T : Type} [DecidableEq T] [Inhabited T] (h : T → Nat)
    (fs : List (List T)) :
    (collect h [] fs).1.length = 3 * (fs.map fun f => f.length - 2).sum := by
  rw [collect_spec]
  dsimp only
  rw [List.nil_append, List.length_map, stream_length]

theorem collect_fst_lt {T : Type} [DecidableEq T] [Inhabited T] (h : T → Nat)
    (fs : List (List T)) :
    ∀ j ∈ (collect h [] fs).1, j < (collect h [] fs).2.length := by
  rw [collect_spec]
  dsimp only
  rw [List.nil_append]
  intro j hj
  rcases List.mem_map.1 hj with ⟨x, hx, rfl⟩
  exact List.indexOf_lt_length.2 ((mem_insertAll _ _ _).2 (Or.inr hx))

theorem lookup_error {α : Type} {l : List α} {i : Nat} {msg e : String}
    (h : lookup l i msg = Except.error e) : e = msg := by
  unfold lookup at h
  split at h
  · cases h
  · injection h with h1
    exact h1.symm

theorem lookup_oob {α : Type} {l : List α} {i : Nat} (msg : String)
    (h : l.length ≤ i) : lookup l i msg = Except.error msg := by
  unfold lookup
  rw [List.get?_eq_none.2 h]

/-- C5: every successfully produced render mesh satisfies the invariants:
each index-buffer value is a valid offset into the deduplicated vertex
arrays, all present per-kind arrays share the positions array's length, and
the index buffer holds exactly three entries per emitted triangle
(`n - 2` triangles for each `n`-point polygon). -/
theorem claim_C5_render_mesh_invariants (rs : RandomState) (data : VertexData)
    (faces : Faces) (ind : List Nat) (verts : Vertices)
    (hok : triangulate rs data faces = Except.ok (ind, verts)) :
    (∀ j ∈ ind, j < verts.positions.length)
    ∧ (∀ ns, verts.normals = some ns → ns.length = verts.positions.length)
    ∧ (∀ us, verts.uvs = some us → us.length = verts.positions.length)
    ∧ ind.length = 3 * ((faceLens faces).map fun n => n - 2).sum := by
  cases faces with
  | V fs =>
    dsimp only [triangulate] at hok
    split at hok
    · cases hok
    · rename_i positions hm
      injection hok with hok'
      injection hok' with h1 h2
      subst h1
      subst h2
      refine ⟨?_, ?_, ?_, ?_⟩
      · intro j hj
        have hlen := mapE_ok_length hm
        rw [hlen]
        exact collect_fst_lt rs.hV fs j hj
      · intro ns hns; cases hns
      · intro us hus; cases hus
      · rw [collect_fst_length, faceLens, List.map_map]
        rfl
  | VT fs =>
    dsimp only [triangulate] at hok
    split at hok
    · cases hok
    · rename_i pu hm
      injection hok with hok'
      injection hok' with h1 h2
      subst h1
      subst h2
      refine ⟨?_, ?_, ?_, ?_⟩
      · intro j hj
        have hlen := mapE_ok_length hm
        rw [List.length_map, hlen]
        exact collect_fst_lt rs.hVT fs j hj
      · intro ns hns; cases hns
      · intro us hus
        injection hus with h3
        subst h3
        rw [List.length_map, List.length_map]
      · rw [collect_fst_length, faceLens, List.map_map]
        rfl
  | VN fs =>
    dsimp only [triangulate] at hok
    split at hok
    · cases hok
    · rename_i pn hm
      injection hok with hok'
      injection hok' with h1 h2
      subst h1
      subst h2
      refine ⟨?_, ?_, ?_, ?_⟩
      · intro j hj
        have hlen := mapE_ok_length hm
        rw [List.length_map, hlen]
        exact collect_fst_lt rs.hVN fs j hj
      · intro ns hns
        injection hns with h3
        subst h3
        rw [List.length_map, List.length_map]
      · intro us hus; cases hus
      · rw [collect_fst_length, faceLens, List.map_map]
        rfl
  | VTN fs =>
    dsimp only [triangulate] at hok
    split at hok
    · cases hok
    · rename_i pnu hm
      injection hok with hok'
      injection hok' with h1 h2
      subst h1
      subst h2
      refine ⟨?_, ?_, ?_, ?_⟩
      · intro j hj
        have hlen := mapE_ok_length hm
        rw [List.length_map, hlen]
        exact collect_fst_lt rs.hVTN fs j hj
      · intro ns hns
        injection hns with h3
        subst h3
        rw [List.length_map, List.length_map]
      · intro us hus
        injection hus with h3
        subst h3
        rw [List.length_map, List.length_map]
      · rw [collect_fst_length, faceLens, List.map_map]
        rfl

/-- Witness for C5: the quad `0 1 2 3` over four positions, with uvs and
normals, triangulated with a non-trivial hasher seed. -/
theorem claim_C5_render_mesh_invariants_witness :
    triangulate ⟨fun n => n, fun p => p.1, fun p => p.2, fun p => p.1⟩
        ⟨[(0,0,0),(1,0,0),(1,1,0),(0,1,0)], [(0,0,1)], [(0,0),(1,1)]⟩
        (Faces.VTN [[(0,0,0),(1,1,0),(2,1,0),(3,0,0)]]) =
      Except.ok ([0,1,2,0,2,3],
        { positions := [(0,0,0),(1,0,0),(1,1,0),(0,1,0)],
          normals := some [(0,0,1),(0,0,1),(0,0,1),(0,0,1)],
          uvs := some [(0,0),(1,1),(1,1),(0,0)] })
    ∧ ((∀ j ∈ ([0,1,2,0,2,3] : List Nat), j < 4)
      ∧ (∀ ns : List Vec3, some [(0,0,1),(0,0,1),(0,0,1),(0,0,1)] = some ns →
          ns.length = 4)
      ∧ ([0,1,2,0,2,3] : List Nat).length = 3 * 2) := by
  have hok : triangulate ⟨fun n => n, fun p => p.1, fun p => p.2, fun p => p.1⟩
      ⟨[(0,0,0),(1,0,0),(1,1,0),(0,1,0)], [(0,0,1)], [(0,0),(1,1)]⟩
      (Faces.VTN [[(0,0,0),(1,1,0),(2,1,0),(3,0,0)]]) =
      Except.ok ([0,1,2,0,2,3],
        { positions := [(0,0,0),(1,0,0),(1,1,0),(0,1,0)],
          normals := some [(0,0,1),(0,0,1),(0,0,1),(0,0,1)],
          uvs := some [(0,0),(1,1),(1,1),(0,0)] }) := rfl
  have hth := claim_C5_render_mesh_invariants _ _ _ _ _ hok
  exact ⟨hok, hth.1, fun ns hns => hth.2.1 ns hns, hth.2.2.2⟩

/-- C6: during vertex-array materialisation, any point-tuple of the
deduplicated set whose resolved index lies outside the bounds of the
corresponding attribute array makes `triangulate` return an
`IndexOutOfRange`-style error (one of the three out-of-range messages)
instead of a render mesh — for each of the four shapes, checked per
attribute kind. -/
theorem claim_C6_index_out_of_range (rs : RandomState) (data : VertexData) :
    (∀ fs : List (List Nat),
      (∃ v ∈ (collect rs.hV [] fs).2, data.vertex.length ≤ v) →
      ∃ e, triangulate rs data (Faces.V fs) = Except.error e
        ∧ (e = ERROR_OOB_VERTEX ∨ e = ERROR_OOB_NORMAL ∨ e = ERROR_OOB_UV))
    ∧ (∀ fs : List (List (Nat × Nat)),
      (∃ p ∈ (collect rs.hVT [] fs).2,
        data.vertex.length ≤ p.1 ∨ data.texture.length ≤ p.2) →
      ∃ e, triangulate rs data (Faces.VT fs) = Except.error e
        ∧ (e = ERROR_OOB_VERTEX ∨ e = ERROR_OOB_NORMAL ∨ e = ERROR_OOB_UV))
    ∧ (∀ fs : List (List (Nat × Nat)),
      (∃ p ∈ (collect rs.hVN [] fs).2,
        data.vertex.length ≤ p.1 ∨ data.normal.length ≤ p.2) →
      ∃ e, triangulate rs data (Faces.VN fs) = Except.error e
        ∧ (e = ERROR_OOB_VERTEX ∨ e = ERROR_OOB_NORMAL ∨ e = ERROR_OOB_UV))
    ∧ (∀ fs : List (List (Nat × Nat × Nat)),
      (∃ p ∈ (collect rs.hVTN [] fs).2,
        data.vertex.length ≤ p.1 ∨ data.texture.length ≤ p.2.1
          ∨ data.normal.length ≤ p.2.2) →
      ∃ e, triangulate rs data (Faces.VTN fs) = Except.error e
        ∧ (e = ERROR_OOB_VERTEX ∨ e = ERROR_OOB_NORMAL ∨ e = ERROR_OOB_UV)) := by
  refine ⟨?_, ?_, ?_, ?_⟩
  · intro fs ⟨v, hv, hoob⟩
    dsimp only [triangulate]
    split
    · rename_i e hm
      refine ⟨e, rfl, ?_⟩
      rcases mapE_error_src hm with ⟨x, _, hx⟩
      exact Or.inl (lookup_error hx)
    · rename_i ys hm
      exfalso
      rcases mapE_ok_get hm v hv with ⟨y, hy⟩
      rw [lookup_oob _ hoob] at hy
      cases hy
  · intro fs ⟨p, hp, hoob⟩
    dsimp only [triangulate]
    split
    · rename_i e hm
      refine ⟨e, rfl, ?_⟩
      rcases mapE_error_src hm with ⟨x, _, hx⟩
      rcases hlv : lookup data.vertex x.1 ERROR_OOB_VERTEX with ev | pos <;>
        rw [hlv] at hx
      · injection hx with hx1
        subst hx1
        exact Or.inl (lookup_error hlv)
      · rcases hlt : lookup data.texture x.2 ERROR_OOB_UV with et | uv <;>
          rw [hlt] at hx
        · injection hx with hx1
          subst hx1
          exact Or.inr (Or.inr (lookup_error hlt))
        · cases hx
    · rename_i ys hm
      exfalso
      rcases mapE_ok_get hm p hp with ⟨y, hy⟩
      rcases hoob with hoob | hoob
      · rw [lookup_oob _ hoob] at hy
        cases hy
      · rcases hlv : lookup data.vertex p.1 ERROR_OOB_VERTEX with ev | pos <;>
          rw [hlv] at hy
        · cases hy
        · rw [lookup_oob _ hoob] at hy
          cases hy
  · intro fs ⟨p, hp, hoob⟩
    dsimp only [triangulate]
    split
    · rename_i e hm
      refine ⟨e, rfl, ?_⟩
      rcases mapE_error_src hm with ⟨x, _, hx⟩
      rcases hlv : lookup data.vertex x.1 ERROR_OOB_VERTEX with ev | pos <;>
        rw [hlv] at hx
      · injection hx with hx1
        subst hx1
        exact Or.inl (lookup_error hlv)
      · rcases hln : lookup data.normal x.2 ERROR_OOB_NORMAL with en | nor <;>
          rw [hln] at hx
        · injection hx with hx1
          subst hx1
          exact Or.inr (Or.inl (lookup_error hln))
        · cases hx
    · rename_i ys hm
      exfalso
      rcases mapE_ok_get hm p hp with ⟨y, hy⟩
      rcases hoob with hoob | hoob
      · rw [lookup_oob _ hoob] at hy
        cases hy
      · rcases hlv : lookup data.vertex p.1 ERROR_OOB_VERTEX with ev | pos <;>
          rw [hlv] at hy
        · cases hy
        · rw [lookup_oob _ hoob] at hy
          cases hy
  · intro fs ⟨p, hp, hoob⟩
    dsimp only [triangulate]
    split
    · rename_i e hm
      refine ⟨e, rfl, ?_⟩
      rcases mapE_error_src hm with ⟨x, _, hx⟩
      rcases hlv : lookup data.vertex x.1 ERROR_OOB_VERTEX with ev | pos <;>
        rw [hlv] at hx
      · injection hx with hx1
        subst hx1
        exact Or.inl (lookup_error hlv)
      · rcases hln : lookup data.normal x.2.2 ERROR_OOB_NORMAL with en | nor <;>
          rw [hln] at hx
        · injection hx with hx1
          subst hx1
          exact Or.inr (Or.inl (lookup_error hln))
        · rcases hlt : lookup data.texture x.2.1 ERROR_OOB_UV with et | uv <;>
            rw [hlt] at hx
          · injection hx with hx1
            subst hx1
            exact Or.inr (Or.inr (lookup_error hlt))
          · cases hx
    · rename_i ys hm
      exfalso
      rcases mapE_ok_get hm p hp with ⟨y, hy⟩
      rcases hoob with hoob | hoob | hoob
      · rw [lookup_oob _ hoob] at hy
        cases hy
      · rcases hlv : lookup data.vertex p.1 ERROR_OOB_VERTEX with ev | pos <;>
          rw [hlv] at hy
        · cases hy
        · rcases hln : lookup data.normal p.2.2 ERROR_OOB_NORMAL with en | nor <;>
            rw [hln] at hy
          · cases hy
          · rw [lookup_oob _ hoob] at hy
            cases hy
      · rcases hlv : lookup data.vertex p.1 ERROR_OOB_VERTEX with ev | pos <;>
          rw [hlv] at hy
        · cases hy
        · rw [lookup_oob _ hoob] at hy
          cases hy

/-- Witness for C6: one triangle over an empty vertex array. -/
theorem claim_C6_index_out_of_range_witness :
    (∃ v ∈ (collect (fun _ => (0 : Nat)) [] ([[0, 1, 2]] : List (List Nat))).2,
      (0 : Nat) ≤ v)
    ∧ ∃ e, triangulate ⟨fun _ => 0, fun _ => 0, fun _ => 0, fun _ => 0⟩
        ⟨[], [], []⟩ (Faces.V [[0, 1, 2]]) = Except.error e
        ∧ (e = ERROR_OOB_VERTEX ∨ e = ERROR_OOB_NORMAL ∨ e = ERROR_OOB_UV) := by
  have hyp : ∃ v ∈ (collect (fun _ => (0 : Nat)) []
      ([[0, 1, 2]] : List (List Nat))).2, (0 : Nat) ≤ v := by
    rw [collect_spec]
    decide
  exact ⟨hyp,
    (claim_C6_index_out_of_range ⟨fun _ => 0, fun _ => 0, fun _ => 0, fun _ => 0⟩
      ⟨[], [], []⟩).1 [[0, 1, 2]] hyp⟩

/-- C8: the pipeline is deterministic: parsing is a pure function of the
byte buffer, and triangulation yields identical index and vertex buffers
for any two hasher seeds — the randomly seeded deduplication state never
influences the result. -/
theorem claim_C8_determinism :
    (∀ b1 b2 : List Char, b1 = b2 → parse_obj b1 = parse_obj b2)
    ∧ ∀ (rs1 rs2 : RandomState) (data : VertexData) (faces : Faces),
        triangulate rs1 data faces = triangulate rs2 data faces := by
  constructor
  · intro b1 b2 h
    rw [h]
  · intro rs1 rs2 data faces
    cases faces <;> simp only [triangulate, collect_spec]

/-- Witness for C8: one concrete buffer parsed twice and one concrete
submesh triangulated under two different hasher seeds. -/
theorem claim_C8_determinism_witness :
    parse_obj ("v 0 0 0\nf 1 1 1\n".toList) = parse_obj ("v 0 0 0\nf 1 1 1\n".toList)
    ∧ triangulate ⟨fun _ => 0, fun _ => 0, fun _ => 0, fun _ => 0⟩
        ⟨[(0,0,0),(1,0,0),(1,1,0)], [], []⟩ (Faces.V [[0, 1, 2]])
      = triangulate ⟨fun n => 17 * n + 5, fun p => p.2, fun p => p.1, fun p => p.2.1⟩
        ⟨[(0,0,0),(1,0,0),(1,1,0)], [], []⟩ (Faces.V [[0, 1, 2]]) :=
  ⟨claim_C8_determinism.1 _ _ rfl,
   claim_C8_determinism.2 _ _ _ _⟩

/-- C1: within one submesh, once the first face statement has fixed the
shape (which is the shape of its leading point-tuple), every subsequent
face containing a point-tuple whose separator pattern differs from the
fixed shape fails with `InconsistentFaceShape`, for every choice of
first-fixed shape. -/
theorem claim_C1_shape_consistency :
    ∀ (first : List (FacePoint Nat)) (sh : Shape),
      decode_face none first = Except.ok sh →
      (∃ p, first.head? = some p ∧ sh = shapeOf p)
      ∧ ∀ (pts : List (FacePoint Nat)), 3 ≤ pts.length →
          (∃ p ∈ pts, shapeOf p ≠ sh) →
          decode_face (some sh) pts = Except.error ObjError.inconsistentFaceShape := by
  intro first sh hfix
  constructor
  · rcases first with _ | ⟨p, rest⟩
    · cases hfix
    · dsimp only [decode_face] at hfix
      split at hfix
      · injection hfix with h1
        exact ⟨p, rfl, h1.symm⟩
      · cases hfix
  · intro pts _ hbad
    dsimp only [decode_face]
    split
    · rename_i hall
      exfalso
      rcases hbad with ⟨p, hp, hne⟩
      simp only [List.all_eq_true, decide_eq_true_eq] at hall
      exact hne (hall p hp)
    · rfl

/-- C7: a breaking statement (`g`, `s`, `o`, `mtllib`, `usemtl`) arriving
while at least one face is accumulated pushes the accumulator as a finished
submesh, empties only its face list and carries every other attribute
forward, then records the just-parsed attribute; with zero accumulated
faces it only updates the attribute and pushes nothing; and end of input
with at least one accumulated face pushes the accumulator unconditionally. -/
theorem claim_C7_mesh_assembler_flush (obj : Obj) (cur : Object) (input : List Char) :
    (∀ gs rest, parse_groups input = some (gs, rest) →
      processStatement ("g".toList) obj cur input =
        some ((if cur.faces = [] then obj
                else { obj with objects := obj.objects ++ [cur] }),
          { (if cur.faces = [] then cur else { cur with faces := [] }) with
              groups := gs }, rest))
    ∧ (∀ n rest, parse_smoothing input = some (n, rest) →
      processStatement ("s".toList) obj cur input =
        some ((if cur.faces = [] then obj
                else { obj with objects := obj.objects ++ [cur] }),
          { (if cur.faces = [] then cur else { cur with faces := [] }) with
              smoothing := n }, rest))
    ∧ (∀ str rest, parse_string input = some (str, rest) →
      processStatement ("o".toList) obj cur input =
        some ((if cur.faces = [] then obj
                else { obj with objects := obj.objects ++ [cur] }),
          { (if cur.faces = [] then cur else { cur with faces := [] }) with
              name := some str }, rest))
    ∧ (∀ str rest, parse_path input = some (str, rest) →
      processStatement ("mtllib".toList) obj cur input =
        some ((if cur.faces = [] then obj
                else { obj with objects := obj.objects ++ [cur] }),
          { (if cur.faces = [] then cur else { cur with faces := [] }) with
              mtllib := some str }, rest))
    ∧ (∀ str rest, parse_string input = some (str, rest) →
      processStatement ("usemtl".toList) obj cur input =
        some ((if cur.faces = [] then obj
                else { obj with objects := obj.objects ++ [cur] }),
          { (if cur.faces = [] then cur else { cur with faces := [] }) with
              material := some str }, rest))
    ∧ (∀ fuel : Nat, cur.faces ≠ [] →
        parse_obj_go fuel obj cur [] =
          some { obj with objects := obj.objects ++ [cur] }) := by
  refine ⟨?_, ?_, ?_, ?_, ?_, ?_⟩
  · intro gs rest hgs
    unfold processStatement
    rw [if_neg (by decide), if_neg (by decide), if_neg (by decide), if_neg (by decide),
      if_pos rfl]
    by_cases hf : cur.faces = [] <;>
      simp [check_finalize, List.isEmpty_iff, hf, hgs]
  · intro n rest hn
    unfold processStatement
    rw [if_neg (by decide), if_neg (by decide), if_neg (by decide), if_neg (by decide),
      if_neg (by decide), if_pos rfl]
    by_cases hf : cur.faces = [] <;>
      simp [check_finalize, List.isEmpty_iff, hf, hn]
  · intro str rest hstr
    unfold processStatement
    rw [if_neg (by decide), if_neg (by decide), if_neg (by decide), if_neg (by decide),
      if_neg (by decide), if_neg (by decide), if_pos rfl]
    by_cases hf : cur.faces = [] <;>
      simp [check_finalize, List.isEmpty_iff, hf, hstr]
  · intro str rest hstr
    have hstr2 : parse_string input = some (str, rest) := hstr
    unfold processStatement
    rw [if_neg (by decide), if_neg (by decide), if_neg (by decide), if_neg (by decide),
      if_neg (by decide), if_neg (by decide), if_neg (by decide), if_pos rfl]
    by_cases hf : cur.faces = [] <;>
      simp [check_finalize, List.isEmpty_iff, hf, parse_path, hstr2]
  · intro str rest hstr
    unfold processStatement
    rw [if_neg (by decide), if_neg (by decide), if_neg (by decide), if_neg (by decide),
      if_neg (by decide), if_neg (by decide), if_neg (by decide), if_neg (by decide),
      if_pos rfl]
    by_cases hf : cur.faces = [] <;>
      simp [check_finalize, List.isEmpty_iff, hf, hstr]
  · intro fuel hne
    unfold parse_obj_go
    rw [show keyword ([] : List Char) = none from rfl]
    rw [if_neg (by simp [List.isEmpty_iff, hne])]

/-- A concrete accumulator holding one face and every attribute, used by
the mesh-assembler witness. -/
def curW : Object :=
  { name := some "n", material := some "m", mtllib := some "lib",
    groups := ["g0"], smoothing := 3,
    faces := [[⟨0, none, none⟩, ⟨0, none, none⟩, ⟨0, none, none⟩]] }

/-- A concrete document with one vertex, used by the mesh-assembler
witness. -/
def objW : Obj := { vertex := [(0, 0, 0)] }

/-- Witness for C7 at a concrete accumulator holding one face and every
attribute: a `g` statement flushes and carries attributes forward, and end
of input flushes unconditionally. -/
theorem claim_C7_mesh_assembler_flush_witness :
    parse_groups ("grp1 grp2\nrest".toList) = some (["grp1", "grp2"], "\nrest".toList)
    ∧ processStatement ("g".toList) objW curW ("grp1 grp2\nrest".toList) =
      some ((if curW.faces = [] then objW
              else { objW with objects := objW.objects ++ [curW] }),
        { (if curW.faces = [] then curW else { curW with faces := [] }) with
            groups := ["grp1", "grp2"] }, "\nrest".toList)
    ∧ curW.faces ≠ []
    ∧ parse_obj_go 5 objW curW [] =
        some { objW with objects := objW.objects ++ [curW] } := by
  refine ⟨by decide, ?_, by decide, ?_⟩
  · exact (claim_C7_mesh_assembler_flush objW curW ("grp1 grp2\nrest".toList)).1
      ["grp1", "grp2"] ("\nrest".toList) (by decide)
  · exact (claim_C7_mesh_assembler_flush objW curW ("grp1 grp2\nrest".toList)).2.2.2.2.2
      5 (by decide)

/-- C9: a statement whose leading keyword is unrecognised is skipped whole:
the dispatch leaves document, attribute store and accumulator untouched and
consumes nothing, the loop just discards the remainder of the line and
continues, and a buffer containing such a statement still parses
successfully, to the same document the buffer without it yields. -/
theorem claim_C9_unknown_keyword_skipped :
    (∀ (key : List Char) (obj : Obj) (cur : Object) (rest : List Char),
      key ∉ ["v".toList, "vn".toList, "vt".toList, "f".toList, "g".toList,
        "s".toList, "o".toList, "mtllib".toList, "usemtl".toList] →
      processStatement key obj cur rest = some (obj, cur, rest))
    ∧ (∀ (fuel : Nat) (obj : Obj) (cur : Object) (input key rest r : List Char),
      keyword input = some (key, rest) →
      key ∉ ["v".toList, "vn".toList, "vt".toList, "f".toList, "g".toList,
        "s".toList, "o".toList, "mtllib".toList, "usemtl".toList] →
      to_next_line rest = some ((), r) →
      parse_obj_go (fuel + 1) obj cur input = parse_obj_go fuel obj cur r)
    ∧ parse_obj ("hello world\nv 1 2 3".toList) = some { vertex := [(1, 2, 3)] }
    ∧ parse_obj ("hello world\nv 1 2 3".toList) = parse_obj ("v 1 2 3".toList) := by
  have hstep : ∀ (key : List Char) (obj : Obj) (cur : Object) (rest : List Char),
      key ∉ ["v".toList, "vn".toList, "vt".toList, "f".toList, "g".toList,
        "s".toList, "o".toList, "mtllib".toList, "usemtl".toList] →
      processStatement key obj cur rest = some (obj, cur, rest) := by
    intro key obj cur rest hkey
    simp only [List.mem_cons, List.mem_singleton, not_or] at hkey
    obtain ⟨h1, h2, h3, h4, h5, h6, h7, h8, h9⟩ := hkey
    unfold processStatement
    rw [if_neg h1, if_neg h2, if_neg h3, if_neg h4, if_neg h5, if_neg h6, if_neg h7,
      if_neg h8, if_neg h9.1]
  refine ⟨hstep, ?_, by decide, by decide⟩
  intro fuel obj cur input key rest r hk hkey hnl
  conv_lhs => rw [parse_obj_go]
  rw [hk]
  dsimp only
  rw [hstep key obj cur rest hkey]
  dsimp only
  rw [hnl]

/-- Witness for C9: the unknown statement `hello world` before a `v`
statement is skipped without any effect, and the buffer still parses. -/
theorem claim_C9_unknown_keyword_skipped_witness :
    processStatement ("hello".toList) { vertex := [(9, 9, 9)] }
        { smoothing := 4 } (" world".toList) =
      some ({ vertex := [(9, 9, 9)] }, { smoothing := 4 }, " world".toList)
    ∧ (keyword ("hello world\nv 1 2 3".toList) =
        some ("hello".toList, "world\nv 1 2 3".toList)
      ∧ to_next_line ("world\nv 1 2 3".toList) = some ((), "v 1 2 3".toList)
      ∧ parse_obj_go 8 Obj.default Object.default ("hello world\nv 1 2 3".toList) =
          parse_obj_go 7 Obj.default Object.default ("v 1 2 3".toList)) := by
  refine ⟨?_, by decide, by decide, ?_⟩
  · exact claim_C9_unknown_keyword_skipped.1 ("hello".toList)
      { vertex := [(9, 9, 9)] } { smoothing := 4 } (" world".toList) (by decide)
  · exact claim_C9_unknown_keyword_skipped.2.1 7 Obj.default Object.default
      ("hello world\nv 1 2 3".toList) ("hello".toList) ("world\nv 1 2 3".toList)
      ("v 1 2 3".toList) (by decide) (by decide) (by decide)

/-- Witness for C1: a vertex-only first face fixes `Shape.v`; a second face
whose middle point-tuple has the vertex+uv pattern then fails. -/
theorem claim_C1_shape_consistency_witness :
    decode_face none ([⟨0, none, none⟩, ⟨1, none, none⟩, ⟨2, none, none⟩] :
        List (FacePoint Nat)) = Except.ok Shape.v
    ∧ ((∃ p, ([⟨0, none, none⟩, ⟨1, none, none⟩, ⟨2, none, none⟩] :
          List (FacePoint Nat)).head? = some p ∧ Shape.v = shapeOf p)
      ∧ (3 ≤ ([⟨0, none, none⟩, ⟨1, some 1, none⟩, ⟨2, none, none⟩] :
          List (FacePoint Nat)).length
        ∧ (∃ p ∈ ([⟨0, none, none⟩, ⟨1, some 1, none⟩, ⟨2, none, none⟩] :
            List (FacePoint Nat)), shapeOf p ≠ Shape.v)
        ∧ decode_face (some Shape.v)
            ([⟨0, none, none⟩, ⟨1, some 1, none⟩, ⟨2, none, none⟩] :
              List (FacePoint Nat)) =
            Except.error ObjError.inconsistentFaceShape)) := by
  have hth := claim_C1_shape_consistency
    [⟨0, none, none⟩, ⟨1, none, none⟩, ⟨2, none, none⟩] Shape.v rfl
  exact ⟨rfl, hth.1,
    by decide, by decide,
    hth.2 [⟨0, none, none⟩, ⟨1, some 1, none⟩, ⟨2, none, none⟩] (by decide) (by decide)⟩

end Wobj
